import Mathlib

/-!
Shallow embedding of the DNS-tunneling detector
(`dns_tunnel_analyzer.py`, `dns_pcap_parser.py`).

Strings are modelled as `List Char`.  Python floating-point arithmetic on
the ratio thresholds is modelled with exact rationals (`ℚ`); Shannon
entropy (which involves `log`) is modelled over the reals (`ℝ`) with
`Real.logb 2`.  Reason strings carry formatted numbers in the source;
since the numeric payloads are derivable from the metrics and only the
identity of the fired rule matters, reasons are modelled as inductive
tags, one per `return` site.
-/

namespace DNSTunnel

/-- Python `s.split('.')` on a list of characters: always returns at least
one (possibly empty) piece; empty pieces between consecutive dots are
kept, exactly as in Python. -/
def splitDots : List Char → List (List Char)
  | [] => [[]]
  | c :: rest =>
    if c = '.' then [] :: splitDots rest
    else
      match splitDots rest with
      | [] => [[c]]
      | p :: ps => (c :: p) :: ps

/-- Python `".".join(parts)` on lists of characters. -/
def joinDots : List (List Char) → List Char
  | [] => []
  | [p] => p
  | p :: ps => p ++ '.' :: joinDots ps

/-- Python `fqdn.lower()` (`dns_tunnel_analyzer.py` line 28).  Python's
`str.lower` applies the full Unicode lowercase mapping; this model uses
the basic-latin map `Char.toLower`, which agrees with Python exactly on
ASCII characters and on characters that are caseless or already
lowercase under Unicode (such as 'ß', which `str.lower` fixes).  It is
not faithful on non-ASCII uppercase characters, so universal statements
about case behaviour are stated for ASCII inputs only. -/
def lowerStr (l : List Char) : List Char := l.map Char.toLower

/-- Python's per-character full uppercase mapping, for the uppercased
input spoken of by the case-invariance property.  `str.upper` can expand
one character to several; modelled here on ASCII (basic-latin map,
one-to-one) together with U+00DF 'ß', whose full uppercase mapping in
Python is the two-character string "SS" — the standard witness that
upper-casing is not length-preserving.  Identity elsewhere, so universal
statements about upper-casing are stated for ASCII inputs only. -/
def pyUpperChar (c : Char) : List Char :=
  if c = 'ß' then ['S', 'S'] else [Char.toUpper c]

/-- Python `fqdn.upper()`: concatenation of the per-character full
uppercase mappings. -/
def upperStr (l : List Char) : List Char := (l.map pyUpperChar).flatten

/-- Predicate singling out the ASCII strings (every code point below
128): on these the case maps `lowerStr`/`upperStr` coincide with
Python's `str.lower`/`str.upper`. -/
def isAsciiStr (l : List Char) : Bool := l.all (fun c => c.toNat < 128)

/-- Embedding of `get_relevant_hostname_part` (`dns_tunnel_analyzer.py` lines 20-49).
`parts.getD (parts.length - 2) []` is Python's `parts[-2]` (the branch
guard `3 < parts.length` makes the index valid).  The two `else` arms
marked unreachable mirror the source's dead `else`/final `return ""`
(`split` always yields a non-empty list). -/
def get_relevant_hostname_part (fqdn : List Char) : List Char :=
  let parts := splitDots (lowerStr fqdn)
  if 2 < parts.length then
    if 3 < parts.length ∧ (parts.getD (parts.length - 2) []).length ≤ 3 ∧
        parts.getD (parts.length - 2) [] ≠ ['c', 'o', 'm'] then
      joinDots (parts.take (parts.length - 3))
    else if 2 < parts.length then
      joinDots (parts.take (parts.length - 2))
    else
      parts.headD []  -- unreachable fallback `return parts[0]` (line 46)
  else if parts ≠ [] then
    parts.headD []    -- `elif parts: return parts[0]` (lines 47-48)
  else
    []                -- unreachable `return ""` (line 49)

section
open Classical

/-- Embedding of `calculate_shannon_entropy` (`dns_tunnel_analyzer.py` lines 66-78).
`text.dedup` stands for Python's `dict.fromkeys(list(text))` (one entry
per distinct character; ordering is irrelevant because the terms are
summed).  The comprehension's `if p > 0` guard is rendered as an
if-inside-the-sum (terms failing the guard contribute `0`, matching the
filtered sum). -/
noncomputable def calculate_shannon_entropy (text : List Char) : ℝ :=
  if text = [] then 0.0
  else
    let prob := text.dedup.map (fun c => ((text.count c : ℝ)) / (text.length : ℝ))
    Neg.neg ((prob.map (fun p => if 0 < p then p * Real.logb 2 p else 0)).sum)

/-- One tag per `return` site of `analyze_domain_char_freq`; the source
attaches formatted metric values to these strings, which are recoverable
from the metrics and irrelevant to which rule fired. -/
inductive CharReason where
  | noRelevantPart
  | highEntropy
  | hexDominant
  | numericDominant
  | lowUniqueChars
  | veryLong
  | passes
deriving DecidableEq

/-- The constant `hex_chars = "0123456789abcdef"` (`dns_tunnel_analyzer.py` line 105). -/
def hex_chars : List Char := "0123456789abcdef".toList

/-- Embedding of `analyze_domain_char_freq` (`dns_tunnel_analyzer.py` lines 80-138),
returning `(is_suspicious, reason, entropy)`.  Thresholds `0.75` and
`0.8` are the exact rationals `3/4` and `4/5`.  The source's
`if len(hostname) > 0` wrappers around rules 2 and 3 only guard the
divisions and always hold on the reachable paths (`hostname ≠ []`), so
they are not separate branch points here.  `hexShare`/`numShare` are the
source's hex/numeric ratio locals; `hostname.dedup.length` is
`len(set(hostname))`. -/
noncomputable def analyze_domain_char_freq (fqdn : List Char) : Bool × CharReason × ℝ :=
  let hostname := get_relevant_hostname_part fqdn
  if hostname = [] then (false, CharReason.noRelevantPart, 0.0)
  else
    let entropy := calculate_shannon_entropy hostname
    if 3.8 < entropy then (true, CharReason.highEntropy, entropy)
    else
      let hexCount := hostname.countP (fun c => hex_chars.contains c)
      let hexShare : ℚ := (hexCount : ℚ) / (hostname.length : ℚ)
      if (3 / 4 : ℚ) < hexShare ∧ 10 < hostname.length then
        (true, CharReason.hexDominant, entropy)
      else
        let numCount := hostname.countP (fun c => c.isDigit)
        let numShare : ℚ := (numCount : ℚ) / (hostname.length : ℚ)
        if (4 / 5 : ℚ) < numShare ∧ 10 < hostname.length then
          (true, CharReason.numericDominant, entropy)
        else
          let uniqueChars := hostname.dedup.length
          if 15 < hostname.length ∧ uniqueChars < 5 then
            (true, CharReason.lowUniqueChars, entropy)
          else if 60 < hostname.length then
            (true, CharReason.veryLong, entropy)
          else (false, CharReason.passes, entropy)

end

/-- Embedding of `get_bigrams` (`dns_tunnel_analyzer.py` lines 142-146):
`[text[i:i+2] for i in range(len(text) - 1)]`, empty when the input has
fewer than two characters (`if not text or len(text) < 2`). -/
def get_bigrams (text : List Char) : List (List Char) :=
  if text.length < 2 then []
  else (List.range (text.length - 1)).map (fun i => (text.drop i).take 2)

/-- The set `illustrative_odd_bigrams` (`dns_tunnel_analyzer.py` line 183),
including the impossible single-character entry `"q"` kept by the
source. -/
def illustrative_odd_bigrams : List (List Char) :=
  [['x', 'q'], ['z', '$'], ['q', 'j'], ['z', 'x'], ['j', '$'], ['$', 'j'],
   ['k', 'q'], ['v', 'q'], ['v', 'x'], ['$', '$'], ['q', 'g'], ['q', 'k'],
   ['q', 'f'], ['j', 'c'], ['q']]

/-- The counter `unseen_in_benign_count` accumulated by the loop at lines 192-199:
a bigram is unseen iff it is not a key of the benign `Counter`, i.e. its
count is `0` (the `Counter` is only ever populated from actual
occurrences, so keys and positive counts coincide). -/
def unseen_in_benign_count (bigrams : List (List Char)) (profile : List Char → ℕ) : ℕ :=
  bigrams.countP (fun bg => profile bg == 0)

/-- The counter `rare_in_benign_count` (lines 200-204): counted when the bigram is
present (`elif` of the unseen test), the benign total is positive, and
its benign relative frequency is below `rare_threshold_factor = 1e-5`
(the exact rational `1/100000`). -/
def rare_in_benign_count (bigrams : List (List Char)) (profile : List Char → ℕ)
    (total : ℕ) : ℕ :=
  bigrams.countP (fun bg =>
    !(profile bg == 0) && decide (0 < total) &&
      decide ((profile bg : ℚ) / (total : ℚ) < 1 / 100000))

/-- The counter `odd_pattern_count` (lines 206-207). -/
def odd_pattern_count (bigrams : List (List Char)) : ℕ :=
  bigrams.countP (fun bg => illustrative_odd_bigrams.contains bg)

/-- One tag per `return` site of `analyze_domain_bigram`, plus the
`"Skipped (no benign bigram profile)"` verdict substituted by `main`. -/
inductive BigramReason where
  | tooShort
  | noBigrams
  | highUnseen
  | highOdd
  | highRare
  | repetitive (bg : List Char)
  | passes
  | skipped
deriving DecidableEq

/-- Embedding of `analyze_domain_bigram` (`dns_tunnel_analyzer.py` lines 161-240).
Thresholds `0.4`, `0.2`, `0.3`, `0.5` are the exact rationals shown.
The repetitiveness loop iterates over `Counter(current_bigrams)`; at most
one bigram can exceed half of all bigram occurrences, so scanning the
bigram list itself with `find?` returns the same unique result the
source's loop does.  The `suspicious_bigrams_details` list only feeds the
formatted reason strings and carries no decision content. -/
def analyze_domain_bigram (fqdn : List Char) (profile : List Char → ℕ)
    (total : ℕ) : Bool × BigramReason :=
  let hostname := get_relevant_hostname_part fqdn
  if hostname = [] ∨ hostname.length < 2 then (false, BigramReason.tooShort)
  else
    let current := get_bigrams hostname
    if current = [] then (false, BigramReason.noBigrams)
    else
      if 3 < current.length ∧
          (2 / 5 : ℚ) < (unseen_in_benign_count current profile : ℚ) / (current.length : ℚ) then
        (true, BigramReason.highUnseen)
      else if 2 < current.length ∧
          (1 / 5 : ℚ) < (odd_pattern_count current : ℚ) / (current.length : ℚ) then
        (true, BigramReason.highOdd)
      else if 3 < current.length ∧
          (3 / 10 : ℚ) < (rare_in_benign_count current profile total : ℚ) / (current.length : ℚ) then
        (true, BigramReason.highRare)
      else
        match current.find? (fun bg =>
            decide (3 < current.length) &&
              decide ((1 / 2 : ℚ) < (current.count bg : ℚ) / (current.length : ℚ))) with
        | some bg => (true, BigramReason.repetitive bg)
        | none => (false, BigramReason.passes)

/-- The multiset of bigram occurrences the benign `Counter` is built from
(`build_benign_bigram_profile` loop, lines 154-158): per benign name, the
bigrams of its non-empty relevant hostname part. -/
def benign_bigram_occurrences (fqdn_list : List (List Char)) : List (List Char) :=
  (fqdn_list.map (fun fqdn =>
    let hostname := get_relevant_hostname_part fqdn
    if hostname ≠ [] then get_bigrams hostname else [])).flatten

/-- Embedding of `build_benign_bigram_profile` (lines 148-159), as the count function
of the accumulated `Counter`. -/
def build_benign_bigram_profile (fqdn_list : List (List Char)) : List Char → ℕ :=
  fun bg => (benign_bigram_occurrences fqdn_list).count bg

/-- The scalar `total_benign_bigrams = sum(benign_bigram_counts.values())`
(line 278): the sum of all counts is the number of accumulated
occurrences. -/
def total_benign_bigrams (fqdn_list : List (List Char)) : ℕ :=
  (benign_bigram_occurrences fqdn_list).length

/-- The per-domain bigram step of `main` (lines 330-333): the detector is
only invoked when the benign profile is non-empty; otherwise the defined
skipped verdict is substituted without calling in. -/
def main_bigram_step (fqdn : List Char) (profile : List Char → ℕ)
    (total : ℕ) : Bool × BigramReason :=
  if 0 < total then analyze_domain_bigram fqdn profile total
  else (false, BigramReason.skipped)

/-! ### `dns_pcap_parser.py` -/

/-- The two fatal `except` arms of `extract_dns_queries_from_pcap`
(lines 37-42): `FileNotFoundError`, and any other exception (corrupt
global header, ...). -/
inductive PcapFault where
  | fileNotFound
  | otherError
deriving DecidableEq

/-- One already-decoded capture record, as the extractor observes it
through scapy: whether a DNS layer / DNSQR layer is present, the `qr`
flag, the advertised question count, and per question index the decoded
query name (`none` models a question whose indexing/decoding raises and
is skipped by the inner `except`, lines 29-31). -/
structure DNSPacket where
  hasDNS : Bool
  qr : ℕ
  hasDNSQR : Bool
  qdcount : ℕ
  qd : List (Option (List Char))

/-- Python `qname.rstrip('.')` (line 26). -/
def rstripDots (l : List Char) : List Char :=
  (l.reverse.dropWhile (fun c => c == '.')).reverse

/-- The per-packet body of the extraction loop (lines 21-31): names are
taken only from DNS queries (`qr = 0`) with a DNSQR layer, iterating
`range(qdcount)`; an out-of-range index or failed decode is skipped. -/
def packetQueries (p : DNSPacket) : List (List Char) :=
  if p.hasDNS && (p.qr == 0) && p.hasDNSQR then
    (List.range p.qdcount).filterMap (fun i => (p.qd.getD i none).map rstripDots)
  else []

/-- Embedding of `extract_dns_queries_from_pcap` (`dns_pcap_parser.py` lines 8-47).
The filesystem and scapy's `PcapReader` are external to the repository;
they are modelled as `readPcap`, mapping a path to either the decoded
record stream or the fault `PcapReader` raises (a missing file raises
`FileNotFoundError`).  On a fault the source prints the error and
returns `[]`; the printed diagnostic is the `Option PcapFault`
component.  The deduplicated `set` accumulation (unspecified iteration
order) is modelled by `dedup` of the accumulated names. -/
def extract_dns_queries_from_pcap
    (readPcap : List Char → Except PcapFault (List DNSPacket))
    (path : List Char) : List (List Char) × Option PcapFault :=
  match readPcap path with
  | Except.error f => ([], some f)
  | Except.ok pkts => (((pkts.map packetQueries).flatten).dedup, none)
/-! ### Helper lemmas: character case mapping -/

lemma char_toNat_ofNat (n : Nat) (h : n < 55296) : (Char.ofNat n).toNat = n := by
  simp only [Char.ofNat]
  rw [dif_pos (Or.inl h)]
  rfl

lemma char_isUpper_eq (c : Char) :
    c.isUpper = (decide (65 ≤ c.toNat) && decide (c.toNat ≤ 90)) := by
  simp only [Char.isUpper, ge_iff_le, UInt32.le_def, BitVec.le_def]
  rfl

lemma toLower_toLower (c : Char) : c.toLower.toLower = c.toLower := by
  simp only [Char.toLower]
  by_cases h : c.toNat ≥ 65 ∧ c.toNat ≤ 90
  · simp only [if_pos h, char_toNat_ofNat (c.toNat + 32) (by omega)]
    rw [if_neg (by omega)]
  · simp only [if_neg h]

lemma toLower_toUpper (c : Char) : c.toUpper.toLower = c.toLower := by
  simp only [Char.toLower, Char.toUpper]
  by_cases h : c.toNat ≥ 97 ∧ c.toNat ≤ 122
  · simp only [if_pos h, char_toNat_ofNat (c.toNat - 32) (by omega)]
    rw [if_pos (show c.toNat - 32 >= 65 ∧ c.toNat - 32 <= 90 by omega),
      if_neg (show ¬(c.toNat >= 65 ∧ c.toNat <= 90) by omega)]
    rw [show c.toNat - 32 + 32 = c.toNat from by omega, Char.ofNat_toNat]
  · simp only [if_neg h]

lemma isUpper_toLower (c : Char) : c.toLower.isUpper = false := by
  rw [char_isUpper_eq]
  simp only [Char.toLower]
  by_cases h : c.toNat ≥ 65 ∧ c.toNat ≤ 90
  · simp only [if_pos h, char_toNat_ofNat (c.toNat + 32) (by omega)]
    simp only [Bool.and_eq_false_iff, decide_eq_false_iff_not]
    omega
  · simp only [if_neg h, Bool.and_eq_false_iff, decide_eq_false_iff_not]
    omega

/-! ### Helper lemmas: splitting and joining labels -/

lemma splitDots_ne_nil (l : List Char) : splitDots l ≠ [] := by
  induction l with
  | nil => simp [splitDots]
  | cons c rest ih =>
    simp only [splitDots]
    by_cases h : c = '.'
    · simp [h]
    · simp only [if_neg h]
      cases hs : splitDots rest with
      | nil => simp
      | cons p ps => simp

lemma mem_splitDots {l : List Char} {p : List Char} {c : Char}
    (hp : p ∈ splitDots l) (hc : c ∈ p) : c ∈ l := by
  induction l generalizing p with
  | nil =>
    simp [splitDots] at hp
    subst hp
    simp at hc
  | cons d rest ih =>
    simp only [splitDots] at hp
    by_cases h : d = '.'
    · rw [if_pos h] at hp
      rcases List.mem_cons.mp hp with h1 | h1
      · subst h1; simp at hc
      · exact List.mem_cons_of_mem _ (ih h1 hc)
    · rw [if_neg h] at hp
      cases hs : splitDots rest with
      | nil => exact absurd hs (splitDots_ne_nil rest)
      | cons q qs =>
        rw [hs] at hp
        rcases List.mem_cons.mp hp with h1 | h1
        · subst h1
          rcases List.mem_cons.mp hc with h2 | h2
          · subst h2; exact List.mem_cons_self _ _
          · exact List.mem_cons_of_mem _ (ih (hs ▸ List.mem_cons_self q qs) h2)
        · exact List.mem_cons_of_mem _ (ih (hs ▸ List.mem_cons_of_mem q h1) hc)

lemma mem_joinDots {ps : List (List Char)} {c : Char}
    (hc : c ∈ joinDots ps) : c = '.' ∨ ∃ p ∈ ps, c ∈ p := by
  induction ps with
  | nil => simp [joinDots] at hc
  | cons p rest ih =>
    cases rest with
    | nil =>
      simp only [joinDots] at hc
      right; exact ⟨p, List.mem_cons_self _ _, hc⟩
    | cons q qs =>
      simp only [joinDots] at hc
      rcases List.mem_append.mp hc with h1 | h1
      · right; exact ⟨p, List.mem_cons_self _ _, h1⟩
      · rcases List.mem_cons.mp h1 with h2 | h2
        · left; exact h2
        · rcases ih h2 with h3 | ⟨r, hr, hcr⟩
          · left; exact h3
          · right; exact ⟨r, List.mem_cons_of_mem _ hr, hcr⟩

/-! ### Helper lemmas: the relevant span under case mapping -/

lemma lowerStr_lowerStr (l : List Char) : lowerStr (lowerStr l) = lowerStr l := by
  simp only [lowerStr, List.map_map]
  exact List.map_congr_left (fun c _ => toLower_toLower c)

lemma lowerStr_upperStr_ascii (l : List Char) (h : isAsciiStr l = true) :
    lowerStr (upperStr l) = lowerStr l := by
  induction l with
  | nil => rfl
  | cons c rest ih =>
    rw [isAsciiStr, List.all_cons, Bool.and_eq_true] at h
    have hc : c.toNat < 128 := of_decide_eq_true h.1
    have hcb : c ≠ 'ß' := by
      intro he
      subst he
      exact absurd hc (by decide)
    simp only [upperStr, List.map_cons, List.flatten_cons] at ih ⊢
    rw [pyUpperChar, if_neg hcb]
    simp only [lowerStr, List.map_cons, List.map_append, List.map_nil,
      List.singleton_append, toLower_toUpper]
    simp only [lowerStr] at ih
    rw [ih h.2]

lemma span_lowerStr (d : List Char) :
    get_relevant_hostname_part (lowerStr d) = get_relevant_hostname_part d := by
  simp only [get_relevant_hostname_part, lowerStr_lowerStr]

lemma span_upperStr_ascii (d : List Char) (h : isAsciiStr d = true) :
    get_relevant_hostname_part (upperStr d) = get_relevant_hostname_part d := by
  simp only [get_relevant_hostname_part, lowerStr_upperStr_ascii d h]

lemma not_isUpper_of_mem_lowerStr {l : List Char} {c : Char}
    (hc : c ∈ lowerStr l) : c.isUpper = false := by
  rcases List.mem_map.mp hc with ⟨x, _, rfl⟩
  exact isUpper_toLower x

lemma span_no_upper {fqdn : List Char} {c : Char}
    (hc : c ∈ get_relevant_hostname_part fqdn) : c.isUpper = false := by
  have key : ∀ p, p ∈ splitDots (lowerStr fqdn) → c ∈ p → c.isUpper = false :=
    fun p hp hcp => not_isUpper_of_mem_lowerStr (mem_splitDots hp hcp)
  have hjoin : ∀ k, c ∈ joinDots ((splitDots (lowerStr fqdn)).take k) →
      c.isUpper = false := by
    intro k hk
    rcases mem_joinDots hk with h1 | ⟨p, hp, hcp⟩
    · subst h1; decide
    · exact key p (List.mem_of_mem_take hp) hcp
  have hhead : c ∈ (splitDots (lowerStr fqdn)).headD [] → c.isUpper = false := by
    intro hk
    cases hs : splitDots (lowerStr fqdn) with
    | nil => exact absurd hs (splitDots_ne_nil _)
    | cons p ps =>
      rw [hs] at hk
      exact key p (hs ▸ List.mem_cons_self p ps) hk
  simp only [get_relevant_hostname_part] at hc
  split at hc
  · split at hc
    · exact hjoin _ hc
    · exact hjoin _ hc
  · split at hc
    · exact hhead hc
    · simp at hc

/-! ### Helper lemmas: entropy and binary logarithms -/

lemma entropy_eq (text : List Char) (h : text ≠ []) :
    calculate_shannon_entropy text =
      Neg.neg ((text.dedup.map (fun c =>
        ((text.count c : ℝ) / (text.length : ℝ)) *
          Real.logb 2 ((text.count c : ℝ) / (text.length : ℝ)))).sum) := by
  simp only [calculate_shannon_entropy, if_neg h, List.map_map]
  congr 2
  apply List.map_congr_left
  intro c hcm
  have hlen : (0 : ℝ) < (text.length : ℝ) := by
    exact_mod_cast List.length_pos.mpr h
  have hcount : (0 : ℝ) < (text.count c : ℝ) := by
    have := List.count_pos_iff.mpr (List.mem_dedup.mp hcm)
    exact_mod_cast this
  simp only [Function.comp]
  rw [if_pos (by positivity)]

lemma entropy_replicate (n : ℕ) (c : Char) (hn : n ≠ 0) :
    calculate_shannon_entropy (List.replicate n c) = 0 := by
  rw [entropy_eq _ (by simp [hn])]
  rw [List.replicate_dedup hn]
  simp only [List.map_cons, List.map_nil, List.count_replicate_self,
    List.length_replicate, List.sum_cons, List.sum_nil]
  rw [div_self (by exact_mod_cast hn)]
  simp [Real.logb_one]

lemma logb2_le_of_pow_le {a : ℕ} (m n : ℕ) (ha : 0 < a) (hn : 0 < n)
    (h : (a : ℝ) ^ n ≤ 2 ^ m) : Real.logb 2 a ≤ (m : ℝ) / (n : ℝ) := by
  have hlog2 : (0 : ℝ) < Real.log 2 := Real.log_pos (by norm_num)
  have hna : (0 : ℝ) < (a : ℝ) := by exact_mod_cast ha
  have h1 : Real.log ((a : ℝ) ^ n) ≤ Real.log ((2 : ℝ) ^ m) :=
    Real.log_le_log (by positivity) h
  rw [Real.log_pow, Real.log_pow] at h1
  rw [Real.logb, div_le_div_iff hlog2 (by exact_mod_cast hn)]
  nlinarith [h1]

lemma le_logb2_of_pow_le {a : ℕ} (m n : ℕ) (hn : 0 < n)
    (h : (2 : ℝ) ^ m ≤ (a : ℝ) ^ n) : (m : ℝ) / (n : ℝ) ≤ Real.logb 2 a := by
  have hlog2 : (0 : ℝ) < Real.log 2 := Real.log_pos (by norm_num)
  have h1 : Real.log ((2 : ℝ) ^ m) ≤ Real.log ((a : ℝ) ^ n) :=
    Real.log_le_log (by positivity) h
  rw [Real.log_pow, Real.log_pow] at h1
  rw [Real.logb, div_le_div_iff (by exact_mod_cast hn) hlog2]
  nlinarith [h1]

lemma logb2_two : Real.logb 2 (2 : ℝ) = 1 :=
  Real.logb_self_eq_one (by norm_num)

lemma logb2_seven_le : Real.logb 2 (7 : ℝ) ≤ 57 / 20 := by
  have := logb2_le_of_pow_le (a := 7) 57 20 (by norm_num) (by norm_num)
    (by norm_num)
  calc Real.logb 2 (7 : ℝ) = Real.logb 2 ((7 : ℕ) : ℝ) := by norm_num
  _ ≤ (57 : ℝ) / 20 := by exact_mod_cast this

lemma le_logb2_five : (58 : ℝ) / 25 ≤ Real.logb 2 (5 : ℝ) := by
  have := le_logb2_of_pow_le (a := 5) 58 25 (by norm_num) (by norm_num)
  calc (58 : ℝ) / 25 ≤ Real.logb 2 ((5 : ℕ) : ℝ) := by exact_mod_cast this
  _ = Real.logb 2 (5 : ℝ) := by norm_num

lemma logb2_quarter_28 : Real.logb 2 ((4 : ℝ) / 28) = -(Real.logb 2 7) := by
  rw [show ((4 : ℝ) / 28) = ((7 : ℝ))⁻¹ by norm_num, Real.logb_inv]

lemma logb2_half_14 : Real.logb 2 ((2 : ℝ) / 28) = -(1 + Real.logb 2 7) := by
  rw [show ((2 : ℝ) / 28) = ((14 : ℝ))⁻¹ by norm_num, Real.logb_inv,
    show ((14 : ℝ)) = 2 * 7 by norm_num,
    Real.logb_mul (by norm_num) (by norm_num), logb2_two]

lemma logb2_one_28 : Real.logb 2 ((1 : ℝ) / 28) = -(2 + Real.logb 2 7) := by
  rw [show ((1 : ℝ) / 28) = ((28 : ℝ))⁻¹ by norm_num, Real.logb_inv,
    show ((28 : ℝ)) = 2 * (2 * 7) by norm_num,
    Real.logb_mul (by norm_num) (by norm_num),
    Real.logb_mul (by norm_num) (by norm_num), logb2_two]
  ring

lemma logb2_five_28 :
    Real.logb 2 ((5 : ℝ) / 28) = Real.logb 2 5 - (2 + Real.logb 2 7) := by
  rw [Real.logb_div (by norm_num) (by norm_num),
    show ((28 : ℝ)) = 2 * (2 * 7) by norm_num,
    Real.logb_mul (by norm_num) (by norm_num),
    Real.logb_mul (by norm_num) (by norm_num), logb2_two]
  ring

lemma entropy_hexdemo_le :
    calculate_shannon_entropy ("deadbeefcafebabe1234567890ab".toList) ≤ 3.8 := by
  rw [entropy_eq _ (by decide)]
  rw [show ("deadbeefcafebabe1234567890ab".toList).dedup =
    "dcfe1234567890ab".toList from by decide]
  simp only [show ("dcfe1234567890ab".toList) =
    ['d', 'c', 'f', 'e', '1', '2', '3', '4', '5', '6', '7', '8', '9', '0', 'a', 'b']
    from rfl]
  simp only [List.map_cons, List.map_nil, List.sum_cons, List.sum_nil,
    show ("deadbeefcafebabe1234567890ab".toList).length = 28 from by decide,
    show ("deadbeefcafebabe1234567890ab".toList).count 'd' = 2 from by decide,
    show ("deadbeefcafebabe1234567890ab".toList).count 'c' = 1 from by decide,
    show ("deadbeefcafebabe1234567890ab".toList).count 'f' = 2 from by decide,
    show ("deadbeefcafebabe1234567890ab".toList).count 'e' = 5 from by decide,
    show ("deadbeefcafebabe1234567890ab".toList).count '1' = 1 from by decide,
    show ("deadbeefcafebabe1234567890ab".toList).count '2' = 1 from by decide,
    show ("deadbeefcafebabe1234567890ab".toList).count '3' = 1 from by decide,
    show ("deadbeefcafebabe1234567890ab".toList).count '4' = 1 from by decide,
    show ("deadbeefcafebabe1234567890ab".toList).count '5' = 1 from by decide,
    show ("deadbeefcafebabe1234567890ab".toList).count '6' = 1 from by decide,
    show ("deadbeefcafebabe1234567890ab".toList).count '7' = 1 from by decide,
    show ("deadbeefcafebabe1234567890ab".toList).count '8' = 1 from by decide,
    show ("deadbeefcafebabe1234567890ab".toList).count '9' = 1 from by decide,
    show ("deadbeefcafebabe1234567890ab".toList).count '0' = 1 from by decide,
    show ("deadbeefcafebabe1234567890ab".toList).count 'a' = 4 from by decide,
    show ("deadbeefcafebabe1234567890ab".toList).count 'b' = 4 from by decide]
  push_cast
  rw [logb2_half_14, logb2_one_28, logb2_five_28, logb2_quarter_28]
  have h7 := logb2_seven_le
  have h5 := le_logb2_five
  norm_num
  linarith [h7, h5]

/-! ### Helper lemmas: branch analysis of the character profiler -/

lemma countP_replicate (p : Char → Bool) (n : ℕ) (c : Char) :
    (List.replicate n c).countP p = if p c then n else 0 := by
  induction n with
  | zero => simp
  | succ k ih =>
    rw [List.replicate_succ, List.countP_cons, ih]
    by_cases h : p c <;> simp [h]

lemma char_freq_replicate61_core (c : Char) (fqdn : List Char)
    (h : get_relevant_hostname_part fqdn = List.replicate 61 c) :
    (analyze_domain_char_freq fqdn).1 = true ∧
      (analyze_domain_char_freq fqdn).2.1 ≠ CharReason.veryLong := by
  have hne : List.replicate 61 c ≠ ([] : List Char) := by simp
  have hent : calculate_shannon_entropy (List.replicate 61 c) = 0 :=
    entropy_replicate 61 c (by norm_num)
  simp only [analyze_domain_char_freq, h]
  rw [if_neg hne]
  rw [if_neg (show ¬((3.8 : ℝ) < calculate_shannon_entropy (List.replicate 61 c)) from by
    rw [hent]; norm_num)]
  rw [countP_replicate, countP_replicate, List.length_replicate,
    List.replicate_dedup (by norm_num)]
  by_cases hhex : hex_chars.contains c = true
  · rw [if_pos hhex]
    split
    · exact ⟨rfl, by simp⟩
    · next hcond => exact absurd ⟨by norm_num, by norm_num⟩ hcond
  · rw [if_neg hhex]
    split
    · next hcond =>
        rw [show ((0 : ℕ) : ℚ) / ((61 : ℕ) : ℚ) = 0 from by norm_num] at hcond
        exact absurd hcond (by norm_num)
    · by_cases hdig : c.isDigit = true
      · rw [if_pos hdig]
        split
        · exact ⟨rfl, by simp⟩
        · next hcond => exact absurd ⟨by norm_num, by norm_num⟩ hcond
      · rw [if_neg hdig]
        split
        · next hcond =>
            rw [show ((0 : ℕ) : ℚ) / ((61 : ℕ) : ℚ) = 0 from by norm_num] at hcond
            exact absurd hcond (by norm_num)
        · split
          · exact ⟨rfl, by simp⟩
          · next hcond => exact absurd ⟨by norm_num, by simp⟩ hcond

lemma char_freq_small_replicate (c : Char) (n : ℕ) (fqdn : List Char)
    (h : get_relevant_hostname_part fqdn = List.replicate n c)
    (hn : n ≠ 0) (hn60 : n ≤ 60)
    (hhex : hex_chars.contains c = false) (hdig : c.isDigit = false) :
    analyze_domain_char_freq fqdn =
      (decide (15 < n),
        if 15 < n then CharReason.lowUniqueChars else CharReason.passes, 0) := by
  have hne : List.replicate n c ≠ ([] : List Char) := by simp [hn]
  have hent : calculate_shannon_entropy (List.replicate n c) = 0 :=
    entropy_replicate n c hn
  simp only [analyze_domain_char_freq, h, hent]
  rw [if_neg hne]
  rw [if_neg (show ¬((3.8 : ℝ) < 0) from by norm_num)]
  rw [countP_replicate, countP_replicate, List.length_replicate,
    List.replicate_dedup hn]
  rw [if_neg (show ¬(hex_chars.contains c = true) from by
      rw [hhex]; exact Bool.false_ne_true),
    if_neg (show ¬(c.isDigit = true) from by
      rw [hdig]; exact Bool.false_ne_true)]
  split
  · next hcond =>
      rw [show ((0 : ℕ) : ℚ) / ((n : ℕ) : ℚ) = 0 from by norm_num] at hcond
      exact absurd hcond.1 (by norm_num)
  · split
    · next hcond =>
        rw [show ((0 : ℕ) : ℚ) / ((n : ℕ) : ℚ) = 0 from by norm_num] at hcond
        exact absurd hcond.1 (by norm_num)
    · by_cases h15 : 15 < n
      · rw [if_pos ⟨h15, by simp⟩]
        simp [h15]
      · rw [if_neg (fun hcond => h15 hcond.1)]
        rw [if_neg (show ¬(60 < n) from by omega)]
        simp [h15]

lemma analyze_char_congr {d e : List Char}
    (h : get_relevant_hostname_part d = get_relevant_hostname_part e) :
    analyze_domain_char_freq d = analyze_domain_char_freq e := by
  simp only [analyze_domain_char_freq, h]

lemma analyze_bigram_congr {d e : List Char} (profile : List Char → ℕ) (total : ℕ)
    (h : get_relevant_hostname_part d = get_relevant_hostname_part e) :
    analyze_domain_bigram d profile total = analyze_domain_bigram e profile total := by
  simp only [analyze_domain_bigram, h]

/-! ### Claim theorems -/

/-- C1 (amended): a relevant span of 61 identical characters always yields a
suspicious character verdict, but its reason is never the excessive-length
rule: for such spans the earlier rules (hex dominant, numeric dominant, or
low character variety — length over 15 with a single distinct character)
fire first, shadowing rule 5. -/
theorem C1_excessive_length_amended (c : Char) (fqdn : List Char)
    (h : get_relevant_hostname_part fqdn = List.replicate 61 c) :
    (analyze_domain_char_freq fqdn).1 = true ∧
      (analyze_domain_char_freq fqdn).2.1 ≠ CharReason.veryLong :=
  char_freq_replicate61_core c fqdn h

/-- C1 witness: the domain made of 61 'a's followed by ".example.com" has the
61-identical-character span, and the amended claim holds there. -/
theorem C1_excessive_length_witness :
    get_relevant_hostname_part (List.replicate 61 'a' ++ ".example.com".toList) =
        List.replicate 61 'a' ∧
      (analyze_domain_char_freq (List.replicate 61 'a' ++ ".example.com".toList)).1 = true ∧
      (analyze_domain_char_freq (List.replicate 61 'a' ++ ".example.com".toList)).2.1 ≠
        CharReason.veryLong :=
  ⟨by decide, C1_excessive_length_amended 'a' _ (by decide)⟩

/-- C1 counterexample: the domain made of 61 'z's followed by ".example.com"
has a span of 61 identical characters, yet its character verdict's reason is
not the excessive-length reason the claim requires. -/
theorem C1_excessive_length_cex :
    get_relevant_hostname_part (List.replicate 61 'z' ++ ".example.com".toList) =
        List.replicate 61 'z' ∧
      (analyze_domain_char_freq (List.replicate 61 'z' ++ ".example.com".toList)).2.1 ≠
        CharReason.veryLong :=
  ⟨by decide, (char_freq_replicate61_core 'z' _ (by decide)).2⟩

/-- C2 counterexample: the non-empty domain name "." has an empty relevant
span, so "the span is empty iff the domain is empty" fails on the code. -/
theorem C2_span_empty_iff_cex :
    ¬(get_relevant_hostname_part ('.' :: []) = ([] : List Char) ↔
        ('.' :: [] : List Char) = []) := by decide

/-- C2 (amended): the empty domain name has an empty relevant span; the
converse direction of the original iff is refuted by `C2_span_empty_iff_cex`
(domains consisting only of dots also produce empty spans). -/
theorem C2_span_empty_amended :
    get_relevant_hostname_part ([] : List Char) = [] := by decide

/-- C3: when opening the capture path raises the not-found fault, extraction
returns the empty result paired with that fault — no names are emitted and
no fault escapes unhandled. -/
theorem C3_missing_file_not_found
    (readPcap : List Char → Except PcapFault (List DNSPacket)) (path : List Char)
    (h : readPcap path = Except.error PcapFault.fileNotFound) :
    extract_dns_queries_from_pcap readPcap path = ([], some PcapFault.fileNotFound) := by
  simp [extract_dns_queries_from_pcap, h]

/-- C3 witness: a concrete filesystem in which no path exists, probed at
"missing.pcap". -/
theorem C3_missing_file_not_found_witness :
    (fun _ : List Char =>
        (Except.error PcapFault.fileNotFound : Except PcapFault (List DNSPacket)))
      ("missing.pcap".toList) = Except.error PcapFault.fileNotFound ∧
    extract_dns_queries_from_pcap
      (fun _ => Except.error PcapFault.fileNotFound) ("missing.pcap".toList) =
        ([], some PcapFault.fileNotFound) :=
  ⟨rfl, C3_missing_file_not_found _ _ rfl⟩

/-- C4: when the benign bigram table has total count 0, the per-domain
scoring step of `main` never invokes the detector (hence performs none of
its divisions) and always substitutes the defined skipped verdict instead
of a normal verdict. -/
theorem C4_empty_profile_skipped (fqdn : List Char) (profile : List Char → ℕ) :
    main_bigram_step fqdn profile 0 = (false, BigramReason.skipped) := by
  simp [main_bigram_step]

/-- C5: any domain whose relevant span is "deadbeefcafebabe1234567890ab"
(28 characters, all hex) gets a suspicious character verdict with the
hex-dominant reason: its entropy stays at or below the 3.8 threshold of the
earlier rule, and hex ratio 1 > 0.75 with length 28 > 10 fires rule 2. -/
theorem C5_hex_dominant (fqdn : List Char)
    (h : get_relevant_hostname_part fqdn = "deadbeefcafebabe1234567890ab".toList) :
    (analyze_domain_char_freq fqdn).1 = true ∧
      (analyze_domain_char_freq fqdn).2.1 = CharReason.hexDominant := by
  simp only [analyze_domain_char_freq, h]
  rw [if_neg (show "deadbeefcafebabe1234567890ab".toList ≠ ([] : List Char) from by decide)]
  rw [if_neg (not_lt.mpr entropy_hexdemo_le)]
  rw [show ("deadbeefcafebabe1234567890ab".toList).countP
        (fun c => hex_chars.contains c) = 28 from by decide,
    show ("deadbeefcafebabe1234567890ab".toList).length = 28 from by decide]
  rw [if_pos (show (3 / 4 : ℚ) < ((28 : ℕ) : ℚ) / ((28 : ℕ) : ℚ) ∧ 10 < 28 from by norm_num)]
  exact ⟨rfl, rfl⟩

/-- C5 witness: the concrete domain "deadbeefcafebabe1234567890ab.example.com"
has exactly that relevant span, and the claim holds there. -/
theorem C5_hex_dominant_witness :
    get_relevant_hostname_part ("deadbeefcafebabe1234567890ab.example.com".toList) =
        "deadbeefcafebabe1234567890ab".toList ∧
      (analyze_domain_char_freq ("deadbeefcafebabe1234567890ab.example.com".toList)).1 = true ∧
      (analyze_domain_char_freq ("deadbeefcafebabe1234567890ab.example.com".toList)).2.1 =
        CharReason.hexDominant :=
  ⟨by decide, C5_hex_dominant _ (by decide)⟩

/-- C6: building the baseline from {"www.example.com", "mail.example.com"}
puts the bigram "ww" in the table (count 2 > 0), and scoring the relevant
span of "www.example.com" against that baseline classifies none of its
bigram occurrences as unseen. -/
theorem C6_roundtrip_ww :
    0 < build_benign_bigram_profile
        ["www.example.com".toList, "mail.example.com".toList] ("ww".toList) ∧
      unseen_in_benign_count
        (get_bigrams (get_relevant_hostname_part ("www.example.com".toList)))
        (build_benign_bigram_profile
          ["www.example.com".toList, "mail.example.com".toList]) = 0 := by
  decide

/-- C7: for every domain, baseline and positive total, if the span has more
than 3 bigrams and the unseen fraction exceeds 0.4, the bigram detector
answers suspicious with the high-unseen reason — this first rule wins before
any later rule is consulted. -/
theorem C7_high_unseen_first (fqdn : List Char) (profile : List Char → ℕ) (total : ℕ)
    (htot : 0 < total)
    (hlen : 3 < (get_bigrams (get_relevant_hostname_part fqdn)).length)
    (hfrac : (2 / 5 : ℚ) <
      (unseen_in_benign_count (get_bigrams (get_relevant_hostname_part fqdn)) profile : ℚ) /
        ((get_bigrams (get_relevant_hostname_part fqdn)).length : ℚ)) :
    analyze_domain_bigram fqdn profile total = (true, BigramReason.highUnseen) := by
  have hne : get_bigrams (get_relevant_hostname_part fqdn) ≠ [] := by
    intro h0
    rw [h0] at hlen
    simp at hlen
  have hhost : ¬(get_relevant_hostname_part fqdn = [] ∨
      (get_relevant_hostname_part fqdn).length < 2) := by
    intro hor
    apply hne
    rcases hor with h | h
    · rw [h]
      simp [get_bigrams]
    · simp [get_bigrams, h]
  simp only [analyze_domain_bigram]
  rw [if_neg hhost, if_neg hne, if_pos ⟨hlen, hfrac⟩]

/-- C7 witness: the domain "xqzj1.example.com" scored against the baseline
built from {"www.example.com", "mail.example.com"} (total 5) has 4 bigrams,
all unseen; the detector answers with the high-unseen reason. -/
theorem C7_high_unseen_first_witness :
    (0 : ℕ) < 5 ∧
      3 < (get_bigrams (get_relevant_hostname_part ("xqzj1.example.com".toList))).length ∧
      (2 / 5 : ℚ) <
        (unseen_in_benign_count
          (get_bigrams (get_relevant_hostname_part ("xqzj1.example.com".toList)))
          (build_benign_bigram_profile
            ["www.example.com".toList, "mail.example.com".toList]) : ℚ) /
          ((get_bigrams (get_relevant_hostname_part ("xqzj1.example.com".toList))).length : ℚ) ∧
      analyze_domain_bigram ("xqzj1.example.com".toList)
        (build_benign_bigram_profile ["www.example.com".toList, "mail.example.com".toList])
        5 = (true, BigramReason.highUnseen) := by
  have hfrac : (2 / 5 : ℚ) <
      (unseen_in_benign_count
        (get_bigrams (get_relevant_hostname_part ("xqzj1.example.com".toList)))
        (build_benign_bigram_profile
          ["www.example.com".toList, "mail.example.com".toList]) : ℚ) /
        ((get_bigrams (get_relevant_hostname_part ("xqzj1.example.com".toList))).length : ℚ) := by
    rw [show unseen_in_benign_count
        (get_bigrams (get_relevant_hostname_part ("xqzj1.example.com".toList)))
        (build_benign_bigram_profile
          ["www.example.com".toList, "mail.example.com".toList]) = 4 from by decide,
      show (get_bigrams (get_relevant_hostname_part ("xqzj1.example.com".toList))).length = 4
        from by decide]
    norm_num
  exact ⟨by norm_num, by decide, hfrac,
    C7_high_unseen_first _ _ _ (by norm_num) (by decide) hfrac⟩

/-- C8: whenever the lowercased domain has more than 3 labels and its
second-to-last label has length at most 3 and differs from "com", the span
normalizer returns the labels before the last three joined with dots — this
branch is tested before (and overrides) the more-than-2-labels rule. -/
theorem C8_compound_tld_rule (fqdn : List Char)
    (h3 : 3 < (splitDots (lowerStr fqdn)).length)
    (hlen : ((splitDots (lowerStr fqdn)).getD
      ((splitDots (lowerStr fqdn)).length - 2) []).length ≤ 3)
    (hcom : (splitDots (lowerStr fqdn)).getD
      ((splitDots (lowerStr fqdn)).length - 2) [] ≠ ['c', 'o', 'm']) :
    get_relevant_hostname_part fqdn =
      joinDots ((splitDots (lowerStr fqdn)).take
        ((splitDots (lowerStr fqdn)).length - 3)) := by
  simp only [get_relevant_hostname_part]
  rw [if_pos (by omega), if_pos ⟨h3, hlen, hcom⟩]

/-- C8 witness: "a.b.c.co.uk" has five labels with second-to-last label "co"
(length 2, not "com"); its span is the first two labels "a.b". -/
theorem C8_compound_tld_rule_witness :
    3 < (splitDots (lowerStr "a.b.c.co.uk".toList)).length ∧
      ((splitDots (lowerStr "a.b.c.co.uk".toList)).getD
        ((splitDots (lowerStr "a.b.c.co.uk".toList)).length - 2) []).length ≤ 3 ∧
      (splitDots (lowerStr "a.b.c.co.uk".toList)).getD
        ((splitDots (lowerStr "a.b.c.co.uk".toList)).length - 2) [] ≠ ['c', 'o', 'm'] ∧
      get_relevant_hostname_part ("a.b.c.co.uk".toList) =
        joinDots ((splitDots (lowerStr "a.b.c.co.uk".toList)).take
          ((splitDots (lowerStr "a.b.c.co.uk".toList)).length - 3)) :=
  ⟨by decide, by decide, by decide,
    C8_compound_tld_rule _ (by decide) (by decide) (by decide)⟩

/-- C9: the Shannon entropy function returns 0 on the empty string, 0 on
"aaaa", and 1 on "ab". -/
theorem C9_entropy_values :
    calculate_shannon_entropy ("".toList) = 0.0 ∧
      calculate_shannon_entropy ("aaaa".toList) = 0.0 ∧
      calculate_shannon_entropy ("ab".toList) = 1.0 := by
  refine ⟨?_, ?_, ?_⟩
  · simp [calculate_shannon_entropy]
  · rw [show ("aaaa".toList) = List.replicate 4 'a' from by decide,
      entropy_replicate 4 'a' (by norm_num)]
    norm_num
  · rw [entropy_eq _ (by decide)]
    rw [show ("ab".toList).dedup = ['a', 'b'] from by decide]
    simp only [List.map_cons, List.map_nil, List.sum_cons, List.sum_nil,
      show ("ab".toList).count 'a' = 1 from by decide,
      show ("ab".toList).count 'b' = 1 from by decide,
      show ("ab".toList).length = 2 from by decide]
    push_cast
    rw [show ((1 : ℝ) / 2) = ((2 : ℝ))⁻¹ by norm_num, Real.logb_inv, logb2_two]
    norm_num

/-- C10 counterexample: the non-ASCII domain made of 8 'ß' characters.
Python's `str.upper` maps 'ß' to "SS", so the uppercased domain is 16
'S' characters; its span "s"*16 trips the low-character-variety rule
(length 16 > 15, one distinct character) while the original span "ß"*8
passes every character rule — the character verdict is not invariant
under upper-casing, and the spans differ, refuting the for-every-input
claim. -/
theorem C10_case_invariance_cex :
    get_relevant_hostname_part (upperStr (List.replicate 8 'ß')) ≠
        get_relevant_hostname_part (List.replicate 8 'ß') ∧
      (analyze_domain_char_freq (upperStr (List.replicate 8 'ß'))).1 = true ∧
      (analyze_domain_char_freq (List.replicate 8 'ß')).1 = false := by
  have h1 : get_relevant_hostname_part (List.replicate 8 'ß') =
      List.replicate 8 'ß' := by decide
  have h2 : upperStr (List.replicate 8 'ß') = List.replicate 16 'S' := by decide
  have h3 : get_relevant_hostname_part (List.replicate 16 'S') =
      List.replicate 16 's' := by decide
  refine ⟨by decide, ?_, ?_⟩
  · rw [h2, char_freq_small_replicate 's' 16 _ h3 (by norm_num) (by norm_num)
      (by decide) (by decide)]
    rfl
  · rw [char_freq_small_replicate 'ß' 8 _ h1 (by norm_num) (by norm_num)
      (by decide) (by decide)]
    rfl

/-- C10 (amended): for every ASCII input (all code points below 128 —
where the modelled case maps agree with Python's `str.lower` and
`str.upper`), the span normalizer's result is unchanged under
lowercasing or uppercasing the domain, the span it returns contains no
uppercase letter, and both detectors' verdicts are invariant under the
letter case of the input — on ASCII inputs the already-lowercased
precondition is not needed.  For non-ASCII inputs the invariance fails
(`C10_case_invariance_cex`). -/
theorem C10_case_invariance_amended (d : List Char) (profile : List Char → ℕ)
    (total : ℕ) (hd : isAsciiStr d = true) :
    get_relevant_hostname_part (lowerStr d) = get_relevant_hostname_part d ∧
      get_relevant_hostname_part (upperStr d) = get_relevant_hostname_part d ∧
      (get_relevant_hostname_part d).all (fun c => !c.isUpper) = true ∧
      analyze_domain_char_freq (lowerStr d) = analyze_domain_char_freq d ∧
      analyze_domain_char_freq (upperStr d) = analyze_domain_char_freq d ∧
      analyze_domain_bigram (lowerStr d) profile total =
        analyze_domain_bigram d profile total ∧
      analyze_domain_bigram (upperStr d) profile total =
        analyze_domain_bigram d profile total := by
  refine ⟨span_lowerStr d, span_upperStr_ascii d hd, ?_,
    analyze_char_congr (span_lowerStr d), analyze_char_congr (span_upperStr_ascii d hd),
    analyze_bigram_congr profile total (span_lowerStr d),
    analyze_bigram_congr profile total (span_upperStr_ascii d hd)⟩
  rw [List.all_eq_true]
  intro c hc
  rw [span_no_upper hc]
  rfl

/-- C10 witness: the mixed-case ASCII domain "WWW.Example.COM" with the
two-name baseline and total 5, exercising the ASCII hypothesis of the
amended claim. -/
theorem C10_case_invariance_witness :
    isAsciiStr ("WWW.Example.COM".toList) = true ∧
      (get_relevant_hostname_part (lowerStr ("WWW.Example.COM".toList)) =
          get_relevant_hostname_part ("WWW.Example.COM".toList) ∧
        get_relevant_hostname_part (upperStr ("WWW.Example.COM".toList)) =
          get_relevant_hostname_part ("WWW.Example.COM".toList) ∧
        (get_relevant_hostname_part ("WWW.Example.COM".toList)).all
          (fun c => !c.isUpper) = true ∧
        analyze_domain_char_freq (lowerStr ("WWW.Example.COM".toList)) =
          analyze_domain_char_freq ("WWW.Example.COM".toList) ∧
        analyze_domain_char_freq (upperStr ("WWW.Example.COM".toList)) =
          analyze_domain_char_freq ("WWW.Example.COM".toList) ∧
        analyze_domain_bigram (lowerStr ("WWW.Example.COM".toList))
          (build_benign_bigram_profile
            ["www.example.com".toList, "mail.example.com".toList]) 5 =
          analyze_domain_bigram ("WWW.Example.COM".toList)
            (build_benign_bigram_profile
              ["www.example.com".toList, "mail.example.com".toList]) 5 ∧
        analyze_domain_bigram (upperStr ("WWW.Example.COM".toList))
          (build_benign_bigram_profile
            ["www.example.com".toList, "mail.example.com".toList]) 5 =
          analyze_domain_bigram ("WWW.Example.COM".toList)
            (build_benign_bigram_profile
              ["www.example.com".toList, "mail.example.com".toList]) 5) :=
  ⟨by decide, C10_case_invariance_amended _ _ _ (by decide)⟩

end DNSTunnel
